import Mathlib

/-!
Shallow embedding of the `fsm-generator` finite-state-machine engine.

The repository contains two variants of the same class:
- `src/index.ts` (also shipped as `index.js`): stateless
  `transition(currentState, input)`, `isAcceptingState(state)`,
  `getOutput(state)` queries, plus `process(input)`.
- an unnamed variant (`src/unnamed/part_000`): stateful `transition(input)`
  mutating `currentState`, `isInAcceptingState()`, `getOutput()`, `reset()`.

JavaScript strings are modelled as `List Char`; a JS `Set` built from a list
is modelled by a first-occurrence de-duplicated list (`jsDedup`) whose `has`
is list membership; a JS `Map` is modelled by an insertion-ordered
association list where `set` overwrites in place (`mapSet`) and `get` is the
first matching key (`mapGet`).  The transition table is keyed by the string
`fromState ++ "," ++ input`, exactly as the source builds it, and the
JavaScript truthiness coercion `x || null` (which sends the empty string to
`null`) is modelled by `jsOrNull`.
-/

deriving instance DecidableEq for Except

namespace FSMGen

/-- A JavaScript string: a sequence of characters. -/
abbrev Str := List Char

/-- Errors surfaced by the engine: `InvalidStateError`, `InvalidSymbolError`,
and the generic `Error("No transition defined for state ... with input ...")`
thrown by `process`.  Each carries the data interpolated into its message. -/
inductive FSMError where
  | invalidState (state : Str)
  | invalidSymbol (symbol : Str)
  | noTransition (state : Str) (symbol : Str)
deriving DecidableEq, Repr

/-- The `FSMConfig<O>` record accepted by the constructor. -/
structure FSMConfig (O : Type) where
  states : List Str
  alphabet : List Str
  initialState : Str
  acceptingStates : List Str
  transitions : List (Str × Str × Str)
  outputs : List (Str × O)
deriving DecidableEq, Repr

/-- The record returned by `process`. -/
structure ProcessResult (O : Type) where
  accepted : Bool
  output : Option O
  finalState : Str
deriving DecidableEq, Repr

/-- The machine instance: the fields of class `FiniteStateMachine<O>`. -/
structure FSM (O : Type) where
  states : List Str
  alphabet : List Str
  initialState : Str
  currentState : Str
  acceptingStates : List Str
  transitionFunction : List (Str × Str)
  outputFunction : List (Str × O)
deriving DecidableEq, Repr

/-- JS `new Set(list)` iteration order: first occurrences, later duplicates
dropped.  `seen` accumulates the elements already emitted. -/
def jsDedupAux (seen : List Str) : List Str → List Str
  | [] => []
  | x :: xs =>
    if x ∈ seen then jsDedupAux seen xs
    else x :: jsDedupAux (x :: seen) xs

/-- JS `Array.from(new Set(list))`. -/
def jsDedup (l : List Str) : List Str := jsDedupAux [] l

/-- The operation `map.set(k, v)` on a JS `Map`: overwrite in place if the key exists,
else append at the end (JS `Map` preserves insertion order). -/
def mapSet {α β : Type} [DecidableEq α] (m : List (α × β)) (k : α) (v : β) :
    List (α × β) :=
  match m with
  | [] => [(k, v)]
  | (k', v') :: rest =>
    if k' = k then (k, v) :: rest else (k', v') :: mapSet rest k v

/-- The operation `map.get(k)` on a JS `Map` (`undefined` becomes `none`). -/
def mapGet {α β : Type} [DecidableEq α] (m : List (α × β)) (k : α) : Option β :=
  match m with
  | [] => none
  | (k', v') :: rest => if k' = k then some v' else mapGet rest k

/-- JS `x || null` on a string-or-undefined: `undefined` and the falsy empty
string both become `null`. -/
def jsOrNull (x : Option Str) : Option Str :=
  match x with
  | some s => if s = [] then none else some s
  | none => none

/-- The composite key `` `${fromState},${input}` `` of the transition table. -/
def transKey (fromState input : Str) : Str := fromState ++ ',' :: input

/-- JS `"a,b,c".split(",")`. -/
def splitComma : Str → List Str
  | [] => [[]]
  | c :: cs =>
    if c = ',' then [] :: splitComma cs
    else
      match splitComma cs with
      | [] => [[c]]
      | p :: ps => (c :: p) :: ps

/-- The constructor loop over `config.acceptingStates` (and, in the unnamed
variant, over output states): the first state not in `states` produces an
`InvalidStateError`. -/
def checkStatesDeclared (states : List Str) : List Str → Option FSMError
  | [] => none
  | s :: rest =>
    if states.contains s then checkStatesDeclared states rest
    else some (.invalidState s)

/-- The constructor loop over `config.outputs` in `src/index.ts`
(`for (const [state] of config.outputs)`). -/
def checkOutputStates {O : Type} (states : List Str) :
    List (Str × O) → Option FSMError
  | [] => none
  | (s, _) :: rest =>
    if states.contains s then checkOutputStates states rest
    else some (.invalidState s)

/-- The constructor loop over `config.transitions` in `src/index.ts`:
validates each triple and inserts it under the comma-joined key.  An invalid
source or destination raises `InvalidStateError` with the interpolated
message payload `` `${fromState} or ${toState}` ``. -/
def buildTransitionFunction (states alphabet : List Str)
    (acc : List (Str × Str)) :
    List (Str × Str × Str) → Except FSMError (List (Str × Str))
  | [] => .ok acc
  | (fromState, input, toState) :: rest =>
    if !states.contains fromState || !states.contains toState then
      .error (.invalidState (fromState ++ (" or ").toList ++ toState))
    else if !alphabet.contains input then
      .error (.invalidSymbol input)
    else
      buildTransitionFunction states alphabet
        (mapSet acc (transKey fromState input) toState) rest

/-- The map `new Map(config.outputs)`: insert each pair in order, later entries for
the same key overwriting earlier ones. -/
def jsMapOfList {α β : Type} [DecidableEq α] (l : List (α × β)) :
    List (α × β) :=
  l.foldl (fun acc p => mapSet acc p.1 p.2) []

/-- The `FiniteStateMachine` constructor of `src/index.ts`: builds the sets
and maps, then validates the initial state, the accepting states, the
transitions (building the transition table), and the output states, in that
order, throwing on the first violation. -/
def construct {O : Type} (config : FSMConfig O) : Except FSMError (FSM O) :=
  let states := jsDedup config.states
  let alphabet := jsDedup config.alphabet
  if !states.contains config.initialState then
    .error (.invalidState config.initialState)
  else
    match checkStatesDeclared states config.acceptingStates with
    | some e => .error e
    | none =>
      match buildTransitionFunction states alphabet [] config.transitions with
      | .error e => .error e
      | .ok tf =>
        match checkOutputStates states config.outputs with
        | some e => .error e
        | none =>
          .ok { states := states
                alphabet := alphabet
                initialState := config.initialState
                currentState := config.initialState
                acceptingStates := jsDedup config.acceptingStates
                transitionFunction := tf
                outputFunction := jsMapOfList config.outputs }

/-- The transition-triple validation of the unnamed variant
(`buildTransitionMap` in `src/unnamed/part_000`): same checks, but the
`InvalidStateError` names the invalid endpoint
(`isValidState(fromState) ? toState : fromState`). -/
def buildTransitionMapV2 (states alphabet : List Str)
    (acc : List (Str × Str)) :
    List (Str × Str × Str) → Except FSMError (List (Str × Str))
  | [] => .ok acc
  | (fromState, input, toState) :: rest =>
    if !states.contains fromState || !states.contains toState then
      .error (.invalidState
        (if states.contains fromState then toState else fromState))
    else if !alphabet.contains input then
      .error (.invalidSymbol input)
    else
      buildTransitionMapV2 states alphabet
        (mapSet acc (transKey fromState input) toState) rest

/-- The constructor of the unnamed variant (`src/unnamed/part_000`):
`validateStates` checks the initial state, the accepting states and the
output states, and `buildTransitionMap` then checks the transitions — so
output validation precedes transition validation. -/
def constructV2 {O : Type} (config : FSMConfig O) : Except FSMError (FSM O) :=
  let states := jsDedup config.states
  let alphabet := jsDedup config.alphabet
  if !states.contains config.initialState then
    .error (.invalidState config.initialState)
  else
    match checkStatesDeclared states config.acceptingStates with
    | some e => .error e
    | none =>
      match checkOutputStates states config.outputs with
      | some e => .error e
      | none =>
        match buildTransitionMapV2 states alphabet [] config.transitions with
        | .error e => .error e
        | .ok tf =>
          .ok { states := states
                alphabet := alphabet
                initialState := config.initialState
                currentState := config.initialState
                acceptingStates := jsDedup config.acceptingStates
                transitionFunction := tf
                outputFunction := jsMapOfList config.outputs }

/-- The method `isValidState(state)`. -/
def isValidState {O : Type} (m : FSM O) (state : Str) : Bool :=
  m.states.contains state

/-- The method `isValidSymbol(symbol)`. -/
def isValidSymbol {O : Type} (m : FSM O) (symbol : Str) : Bool :=
  m.alphabet.contains symbol

/-- The stateless `transition(currentState, input)` of `src/index.ts`: it
validates the state argument, then the symbol, then looks up the
comma-joined key and returns `nextState || null`.  It reads but never
writes the machine, so it takes no machine back out. -/
def transition {O : Type} (m : FSM O) (currentState input : Str) :
    Except FSMError (Option Str) :=
  if !isValidState m currentState then .error (.invalidState currentState)
  else if !isValidSymbol m input then .error (.invalidSymbol input)
  else .ok (jsOrNull (mapGet m.transitionFunction (transKey currentState input)))

/-- The stateful `transition(input)` of the unnamed variant: validates the
symbol, looks up `(currentState, input)`, updates `currentState` only when
the result is truthy (`if (nextState)`), and returns `nextState || null`.
The machine component of the result is the instance after the call — on a
thrown error the instance is unchanged. -/
def transitionV2 {O : Type} (m : FSM O) (input : Str) :
    Except FSMError (Option Str) × FSM O :=
  if !isValidSymbol m input then (.error (.invalidSymbol input), m)
  else
    match mapGet m.transitionFunction (transKey m.currentState input) with
    | some nextState =>
      if nextState = [] then (.ok none, m)
      else (.ok (some nextState), { m with currentState := nextState })
    | none => (.ok none, m)

/-- The method `isAcceptingState(state)` of `src/index.ts` (explicit-state query). -/
def isAcceptingState {O : Type} (m : FSM O) (state : Str) :
    Except FSMError Bool :=
  if !isValidState m state then .error (.invalidState state)
  else .ok (m.acceptingStates.contains state)

/-- The method `getOutput(state)` of `src/index.ts` (explicit-state query;
`undefined` becomes `none`). -/
def getOutputQ {O : Type} (m : FSM O) (state : Str) :
    Except FSMError (Option O) :=
  if !isValidState m state then .error (.invalidState state)
  else .ok (mapGet m.outputFunction state)

/-- The method `isInAcceptingState()` of the unnamed variant (current-state query). -/
def isInAcceptingState {O : Type} (m : FSM O) : Bool :=
  m.acceptingStates.contains m.currentState

/-- The method `getOutput()` of the unnamed variant (current-state query). -/
def getOutputCur {O : Type} (m : FSM O) : Option O :=
  mapGet m.outputFunction m.currentState

/-- The method `getCurrentState()`. -/
def getCurrentState {O : Type} (m : FSM O) : Str := m.currentState

/-- The method `reset()`: sets `currentState` back to `initialState`. -/
def reset {O : Type} (m : FSM O) : FSM O :=
  { m with currentState := m.initialState }

/-- The test `output !== undefined ? output : null` — both `undefined` and `null`
are `none` in this model, so this is the identity on `Option`; it is kept
as its own definition because the source tests against `undefined`
explicitly (not truthiness), which is what keeps falsy outputs intact. -/
def jsUndefinedToNull {O : Type} (x : Option O) : Option O :=
  match x with
  | some o => some o
  | none => none

/-- The tail of `process` in `src/index.ts`: `getOutput(currentState)`
(which validates the state and maps `undefined` to `null`), then
`isAcceptingState(currentState)`, then the result record. -/
def finishProcess {O : Type} (m : FSM O) : Except FSMError (ProcessResult O) :=
  if !isValidState m m.currentState then
    .error (.invalidState m.currentState)
  else
    .ok { accepted := m.acceptingStates.contains m.currentState
          output := jsUndefinedToNull (mapGet m.outputFunction m.currentState)
          finalState := m.currentState }

/-- The `for (const symbol of input)` loop of `process`: each character of
the input string is a one-character symbol; an undeclared symbol raises
`InvalidSymbolError`, a missing transition raises the generic
`No transition defined` error, and a successful step advances the current
state.  The machine component is the instance after the call (on a thrown
error: at the point of failure). -/
def processGo {O : Type} (m : FSM O) :
    List Char → Except FSMError (ProcessResult O) × FSM O
  | [] => (finishProcess m, m)
  | c :: cs =>
    match transitionV2 m [c] with
    | (.error e, m') => (.error e, m')
    | (.ok none, m') => (.error (.noTransition m'.currentState [c]), m')
    | (.ok (some _), m') => processGo m' cs

/-- The method `process(input)`: resets `currentState` to `initialState`, then runs the
symbol loop over the characters of `input`. -/
def processChars {O : Type} (m : FSM O) (input : List Char) :
    Except FSMError (ProcessResult O) × FSM O :=
  processGo (reset m) input

/-- The method `getStructure("object")`: rebuilds a configuration record from the
retained sets and maps; each transition-table entry's key is split on `","`
and the first two segments become the exported source state and symbol. -/
def getStructure {O : Type} (m : FSM O) : FSMConfig O :=
  { states := m.states
    alphabet := m.alphabet
    initialState := m.initialState
    acceptingStates := m.acceptingStates
    transitions := m.transitionFunction.map (fun kv =>
      let parts := splitComma kv.1
      (parts.getD 0 [], parts.getD 1 [], kv.2))
    outputs := m.outputFunction }

/-- The public operations that can touch the machine after construction.
`queryOp` stands for all the read-only operations (`getCurrentState`,
`isInAcceptingState`, `getOutput`, `getStructure`, the stateless
`transition` query, `isValidState`, `isValidSymbol`), none of which write
any field. -/
inductive Op where
  | advanceOp (symbol : Str)
  | processOp (input : List Char)
  | resetOp
  | queryOp

/-- The machine left behind by one public operation (whether it returns
normally or throws). -/
def applyOp {O : Type} (m : FSM O) : Op → FSM O
  | .advanceOp symbol => (transitionV2 m symbol).2
  | .processOp input => (processChars m input).2
  | .resetOp => reset m
  | .queryOp => m

/-! ### Concrete configurations used by the claims -/

/-- The traffic-light configuration of the spec's concrete scenario. -/
def trafficConfig : FSMConfig Str :=
  { states := ["Red".toList, "Yellow".toList, "Green".toList]
    alphabet := ["Next".toList]
    initialState := "Red".toList
    acceptingStates := ["Red".toList, "Green".toList]
    transitions :=
      [("Red".toList, "Next".toList, "Green".toList),
       ("Green".toList, "Next".toList, "Yellow".toList),
       ("Yellow".toList, "Next".toList, "Red".toList)]
    outputs :=
      [("Red".toList, "Stop".toList),
       ("Green".toList, "Go".toList),
       ("Yellow".toList, "Prepare to stop".toList)] }

/-- The traffic-light machine with the multi-character symbol `"Next"`
replaced by the single-character symbol `"N"`, so that the character-wise
iteration of `process` can consume it. -/
def trafficConfigN : FSMConfig Str :=
  { states := ["Red".toList, "Yellow".toList, "Green".toList]
    alphabet := ["N".toList]
    initialState := "Red".toList
    acceptingStates := ["Red".toList, "Green".toList]
    transitions :=
      [("Red".toList, "N".toList, "Green".toList),
       ("Green".toList, "N".toList, "Yellow".toList),
       ("Yellow".toList, "N".toList, "Red".toList)]
    outputs :=
      [("Red".toList, "Stop".toList),
       ("Green".toList, "Go".toList),
       ("Yellow".toList, "Prepare to stop".toList)] }

/-- A valid configuration whose state name `"A,b"` contains a comma: the
declared pairs `("A,b", "x")` and `("A", "b,x")` share the joined
transition-table key `"A,b,x"`. -/
def commaConfig : FSMConfig Str :=
  { states := ["A,b".toList, "A".toList, "T".toList, "U".toList]
    alphabet := ["x".toList, "b,x".toList]
    initialState := "A".toList
    acceptingStates := []
    transitions :=
      [("A,b".toList, "x".toList, "T".toList),
       ("A".toList, "b,x".toList, "U".toList)]
    outputs := [] }

/-- A valid configuration in which the declared pair `("A", "x")` maps to
the declared state named `""` (the empty string, a falsy value in JS). -/
def emptyDestConfig : FSMConfig Str :=
  { states := ["A".toList, []]
    alphabet := ["x".toList]
    initialState := "A".toList
    acceptingStates := []
    transitions := [("A".toList, "x".toList, [])]
    outputs := [] }

/-- A small two-state machine used to instantiate the quantified theorems:
it is exactly the machine `construct` builds from
`{states: ["A","B"], alphabet: ["0"], initialState: "A",
acceptingStates: ["B"], transitions: [["A","0","B"]], outputs: [["A",""]]}`,
with its current state at `"B"`. -/
def sampleMachine : FSM Str :=
  { states := ["A".toList, "B".toList]
    alphabet := ["0".toList]
    initialState := "A".toList
    currentState := "B".toList
    acceptingStates := ["B".toList]
    transitionFunction := [("A,0".toList, "B".toList)]
    outputFunction := [("A".toList, [])] }

/-- Spec-side reference definition (the claim's words, not the source): the
"last state successfully reached" while consuming the input — fold through
the transition table until a symbol is undeclared or the current pair has no
(truthy) transition, and stop there. -/
def specLastReached (alphabet : List Str) (tf : List (Str × Str)) (s : Str) :
    List Char → Str
  | [] => s
  | c :: cs =>
    if alphabet.contains [c] then
      match mapGet tf (transKey s [c]) with
      | some d => if d = [] then s else specLastReached alphabet tf d cs
      | none => s
    else s

/-- The per-triple validity test of the constructor's transition loop: true
iff the triple would make the loop throw (source, destination, or symbol
undeclared).  Used to describe which triple the fail-fast loop stops at. -/
def badTransition (states alphabet : List Str) (t : Str × Str × Str) : Bool :=
  !states.contains t.1 || !states.contains t.2.2 || !alphabet.contains t.2.1

/-- A configuration whose only flaw is the undeclared transition destination
`"Z"` (the source `"A"` is declared). -/
def badDestConfig : FSMConfig Str :=
  { states := ["A".toList, "B".toList]
    alphabet := ["0".toList]
    initialState := "A".toList
    acceptingStates := []
    transitions := [("A".toList, "0".toList, "Z".toList)]
    outputs := [] }

/-- A configuration with both an undeclared transition symbol (`"9"`) and an
undeclared output state (`"Q"`), separating the two constructors'
validation orders. -/
def dualBadConfig : FSMConfig Str :=
  { states := ["A".toList]
    alphabet := ["0".toList]
    initialState := "A".toList
    acceptingStates := []
    transitions := [("A".toList, "9".toList, "A".toList)]
    outputs := [("Q".toList, "x".toList)] }

/-- A comma-free two-state configuration used to instantiate the round-trip
theorem. -/
def roundConfig : FSMConfig Str :=
  { states := ["S".toList, "T".toList]
    alphabet := ["a".toList, "b".toList]
    initialState := "S".toList
    acceptingStates := ["T".toList]
    transitions :=
      [("S".toList, "a".toList, "T".toList),
       ("T".toList, "b".toList, "S".toList)]
    outputs := [("S".toList, "x".toList)] }

/-- The machine `construct` builds from `roundConfig`. -/
def roundMachine : FSM Str :=
  { states := ["S".toList, "T".toList]
    alphabet := ["a".toList, "b".toList]
    initialState := "S".toList
    currentState := "S".toList
    acceptingStates := ["T".toList]
    transitionFunction :=
      [("S,a".toList, "T".toList), ("T,b".toList, "S".toList)]
    outputFunction := [("S".toList, "x".toList)] }

/-- The machine `construct` builds from `trafficConfigN`. -/
def trafficMachineN : FSM Str :=
  { states := ["Red".toList, "Yellow".toList, "Green".toList]
    alphabet := ["N".toList]
    initialState := "Red".toList
    currentState := "Red".toList
    acceptingStates := ["Red".toList, "Green".toList]
    transitionFunction :=
      [("Red,N".toList, "Green".toList),
       ("Green,N".toList, "Yellow".toList),
       ("Yellow,N".toList, "Red".toList)]
    outputFunction :=
      [("Red".toList, "Stop".toList),
       ("Green".toList, "Go".toList),
       ("Yellow".toList, "Prepare to stop".toList)] }

/-! ### Helper lemmas -/

/-- The test `x !== undefined ? x : null` is the identity once `undefined` and
`null` are identified. -/
theorem jsUndefinedToNull_eq {O : Type} (x : Option O) :
    jsUndefinedToNull x = x := by
  cases x <;> rfl

/-- Success of the `process` loop determines the result's output field from
the output table at the result's final state. -/
theorem processGo_ok_output {O : Type} (input : List Char) :
    ∀ (m : FSM O) (r : ProcessResult O),
      (processGo m input).1 = .ok r →
      r.output = mapGet m.outputFunction r.finalState := by
  induction input with
  | nil =>
    intro m r h
    simp only [processGo, finishProcess] at h
    split at h
    · exact absurd h (by simp)
    · cases h.symm
      simp [jsUndefinedToNull_eq]
  | cons c cs ih =>
    intro m r h
    simp only [processGo] at h
    cases htv : transitionV2 m [c] with
    | mk res m' =>
      rw [htv] at h
      match res with
      | .error e => simp at h
      | .ok none => simp at h
      | .ok (some d) =>
        have hout : m'.outputFunction = m.outputFunction := by
          simp only [transitionV2] at htv
          split at htv
          · cases htv
          · split at htv
            · split at htv <;> (cases htv <;> try rfl)
            · cases htv
        rw [← hout]
        exact ih m' r h

/-- Membership after de-duplication: emitted iff present and not already
seen. -/
theorem jsDedupAux_mem :
    ∀ (l seen : List Str) (x : Str),
      x ∈ jsDedupAux seen l ↔ x ∈ l ∧ x ∉ seen := by
  intro l
  induction l with
  | nil => intro seen x; simp [jsDedupAux]
  | cons y ys ih =>
    intro seen x
    by_cases hy : y ∈ seen
    · rw [jsDedupAux, if_pos hy, ih]
      constructor
      · rintro ⟨h1, h2⟩
        exact ⟨List.mem_cons_of_mem _ h1, h2⟩
      · rintro ⟨h1, h2⟩
        rcases List.mem_cons.mp h1 with rfl | h1'
        · exact absurd hy h2
        · exact ⟨h1', h2⟩
    · rw [jsDedupAux, if_neg hy]
      constructor
      · intro hx
        rcases List.mem_cons.mp hx with rfl | hx'
        · exact ⟨List.mem_cons_self _ _, hy⟩
        · rcases (ih (y :: seen) x).mp hx' with ⟨h1, h2⟩
          refine ⟨List.mem_cons_of_mem _ h1, fun hc => h2 ?_⟩
          exact List.mem_cons_of_mem _ hc
      · rintro ⟨h1, h2⟩
        rcases List.mem_cons.mp h1 with rfl | h1'
        · exact List.mem_cons_self _ _
        · by_cases hxy : x = y
          · subst hxy; exact List.mem_cons_self _ _
          · refine List.mem_cons_of_mem _ ((ih (y :: seen) x).mpr
              ⟨h1', fun hc => ?_⟩)
            rcases List.mem_cons.mp hc with h' | h'
            · exact hxy h'
            · exact h2 h'

/-- Membership is preserved by `jsDedup`. -/
theorem jsDedup_mem (l : List Str) (x : Str) : x ∈ jsDedup l ↔ x ∈ l := by
  rw [jsDedup, jsDedupAux_mem]
  simp

/-- De-duplication yields a duplicate-free list. -/
theorem jsDedupAux_nodup : ∀ (l seen : List Str), (jsDedupAux seen l).Nodup := by
  intro l
  induction l with
  | nil => intro seen; exact List.nodup_nil
  | cons y ys ih =>
    intro seen
    by_cases hy : y ∈ seen
    · rw [jsDedupAux, if_pos hy]; exact ih seen
    · rw [jsDedupAux, if_neg hy]
      refine List.Nodup.cons (fun hc => ?_) (ih (y :: seen))
      exact ((jsDedupAux_mem ys (y :: seen) y).mp hc).2
        (List.mem_cons_self _ _)

/-- De-duplicating a duplicate-free list it has not seen is the identity. -/
theorem jsDedupAux_eq_self :
    ∀ (l seen : List Str), l.Nodup → (∀ x ∈ l, x ∉ seen) →
      jsDedupAux seen l = l := by
  intro l
  induction l with
  | nil => intro seen _ _; rfl
  | cons y ys ih =>
    intro seen hnd hdis
    rw [jsDedupAux, if_neg (hdis y (List.mem_cons_self _ _))]
    congr 1
    refine ih (y :: seen) (List.Nodup.of_cons hnd) (fun x hx hc => ?_)
    rcases List.mem_cons.mp hc with rfl | h'
    · exact (List.nodup_cons.mp hnd).1 hx
    · exact hdis x (List.mem_cons_of_mem _ hx) h'

/-- Idempotence of `jsDedup`. -/
theorem jsDedup_idem (l : List Str) : jsDedup (jsDedup l) = jsDedup l :=
  jsDedupAux_eq_self (jsDedup l) [] (jsDedupAux_nodup l [])
    (fun _ _ h => (List.not_mem_nil _) h)

/-- Setting an absent key appends the entry at the end. -/
theorem mapSet_of_not_mem_keys {α β : Type} [DecidableEq α] :
    ∀ (m : List (α × β)) (k : α) (v : β), k ∉ m.map Prod.fst →
      mapSet m k v = m ++ [(k, v)] := by
  intro m
  induction m with
  | nil => intro k v _; rfl
  | cons q rest ih =>
    intro k v hk
    obtain ⟨k', v'⟩ := q
    simp only [List.map_cons] at hk
    have hq : ¬ k' = k := fun hc => hk (by rw [hc]; exact List.mem_cons_self _ _)
    have hk' : k ∉ rest.map Prod.fst := fun hc => hk (List.mem_cons_of_mem _ hc)
    rw [mapSet, if_neg hq, ih k v hk']
    rfl

/-- Setting a present key keeps the key list unchanged. -/
theorem mapSet_keys_of_mem {α β : Type} [DecidableEq α] :
    ∀ (m : List (α × β)) (k : α) (v : β), k ∈ m.map Prod.fst →
      (mapSet m k v).map Prod.fst = m.map Prod.fst := by
  intro m
  induction m with
  | nil => intro k v hk; exact absurd hk (List.not_mem_nil _)
  | cons q rest ih =>
    intro k v hk
    obtain ⟨k', v'⟩ := q
    by_cases hq : k' = k
    · rw [mapSet, if_pos hq]
      simp [hq]
    · rw [mapSet, if_neg hq]
      have hk' : k ∈ rest.map Prod.fst := by
        rcases List.mem_cons.mp hk with h' | h'
        · exact absurd h'.symm hq
        · exact h'
      simp only [List.map_cons]
      rw [ih k v hk']

/-- Folding `mapSet` over entries whose keys are fresh and duplicate-free
reproduces the entries, appended to the accumulator. -/
theorem foldl_mapSet_eq_append {α β : Type} [DecidableEq α] :
    ∀ (l acc : List (α × β)), ((acc ++ l).map Prod.fst).Nodup →
      l.foldl (fun a q => mapSet a q.1 q.2) acc = acc ++ l := by
  intro l
  induction l with
  | nil => intro acc _; simp
  | cons q rest ih =>
    intro acc hnd
    have hq : q.1 ∉ acc.map Prod.fst := by
      intro hc
      have : q.1 ∈ (rest.map Prod.fst) ∨ q.1 = q.1 := .inr rfl
      simp only [List.map_append, List.map_cons] at hnd
      rcases List.nodup_append.mp hnd with ⟨_, _, hdis⟩
      exact hdis hc (List.mem_cons_self _ _)
    rw [List.foldl_cons, mapSet_of_not_mem_keys acc q.1 q.2 hq]
    have hnd' : (((acc ++ [q]) ++ rest).map Prod.fst).Nodup := by
      simpa [List.append_assoc] using hnd
    have := ih (acc ++ [(q.1, q.2)]) (by simpa using hnd')
    rw [this]
    simp

/-- Splitting a comma-free string yields the single segment. -/
theorem splitComma_no_comma : ∀ (a : Str), ',' ∉ a → splitComma a = [a] := by
  intro a
  induction a with
  | nil => intro _; rfl
  | cons c cs ih =>
    intro h
    have hc : ¬ c = ',' := by
      intro hcc
      apply h
      rw [hcc]
      exact List.mem_cons_self _ _
    rw [splitComma, if_neg hc, ih (fun hm => h (List.mem_cons_of_mem _ hm))]

/-- Splitting a comma-joined key of comma-free parts recovers the parts. -/
theorem splitComma_transKey :
    ∀ (f a : Str), ',' ∉ f → ',' ∉ a →
      splitComma (transKey f a) = [f, a] := by
  intro f
  induction f with
  | nil =>
    intro a _ ha
    show splitComma (',' :: a) = [[], a]
    rw [splitComma, if_pos rfl, splitComma_no_comma a ha]
  | cons c cs ih =>
    intro a hf ha
    have hc : ¬ c = ',' := by
      intro hcc
      apply hf
      rw [hcc]
      exact List.mem_cons_self _ _
    have hcs : ',' ∉ cs := fun hm => hf (List.mem_cons_of_mem _ hm)
    show splitComma (c :: (cs ++ ',' :: a)) = [c :: cs, a]
    rw [splitComma, if_neg hc]
    have hih : splitComma (cs ++ ',' :: a) = [cs, a] := ih a hcs ha
    rw [hih]

/-- Setting a key preserves duplicate-freedom of keys. -/
theorem mapSet_keys_nodup {α β : Type} [DecidableEq α]
    (m : List (α × β)) (k : α) (v : β) (h : (m.map Prod.fst).Nodup) :
    ((mapSet m k v).map Prod.fst).Nodup := by
  by_cases hk : k ∈ m.map Prod.fst
  · rw [mapSet_keys_of_mem m k v hk]
    exact h
  · rw [mapSet_of_not_mem_keys m k v hk]
    simp only [List.map_append, List.map_cons, List.map_nil]
    rw [List.nodup_append]
    refine ⟨h, List.nodup_singleton _, fun a ha hak => ?_⟩
    rw [List.mem_singleton] at hak
    subst hak
    exact hk ha

/-- A fold of `mapSet` keeps keys duplicate-free. -/
theorem foldl_mapSet_keys_nodup {α β : Type} [DecidableEq α] :
    ∀ (l acc : List (α × β)), (acc.map Prod.fst).Nodup →
      ((l.foldl (fun a q => mapSet a q.1 q.2) acc).map Prod.fst).Nodup := by
  intro l
  induction l with
  | nil => intro acc h; exact h
  | cons q rest ih =>
    intro acc h
    exact ih _ (mapSet_keys_nodup acc q.1 q.2 h)

/-- The keys of a JS `Map` built from entry pairs are duplicate-free. -/
theorem jsMapOfList_keys_nodup {α β : Type} [DecidableEq α]
    (l : List (α × β)) : ((jsMapOfList l).map Prod.fst).Nodup :=
  foldl_mapSet_keys_nodup l [] List.nodup_nil

/-- Rebuilding a JS `Map` from its own (duplicate-free-keyed) entries is the
identity. -/
theorem jsMapOfList_eq_self {α β : Type} [DecidableEq α]
    (l : List (α × β)) (h : (l.map Prod.fst).Nodup) : jsMapOfList l = l := by
  have := foldl_mapSet_eq_append l [] (by simpa using h)
  simpa [jsMapOfList] using this

/-- Every entry of `mapSet m k v` is an entry of `m` or the pair itself. -/
theorem mem_mapSet {α β : Type} [DecidableEq α] {m : List (α × β)} {k : α}
    {v : β} : ∀ p ∈ mapSet m k v, p ∈ m ∨ p = (k, v) := by
  induction m with
  | nil =>
    intro p hp
    simp only [mapSet, List.mem_singleton] at hp
    exact .inr hp
  | cons q rest ih =>
    intro p hp
    simp only [mapSet] at hp
    split at hp
    · rcases List.mem_cons.mp hp with rfl | hp'
      · exact .inr rfl
      · exact .inl (List.mem_cons_of_mem _ hp')
    · rcases List.mem_cons.mp hp with rfl | hp'
      · exact .inl (List.mem_cons_self _ _)
      · rcases ih p hp' with h' | h'
        · exact .inl (List.mem_cons_of_mem _ h')
        · exact .inr h'

/-- A successful `mapGet` returns an entry of the list. -/
theorem mapGet_mem {α β : Type} [DecidableEq α] :
    ∀ {m : List (α × β)} {k : α} {v : β},
      mapGet m k = some v → (k, v) ∈ m := by
  intro m
  induction m with
  | nil => intro k v h; exact Option.noConfusion h
  | cons q rest ih =>
    intro k v h
    simp only [mapGet] at h
    split at h
    · rename_i hk
      cases h
      rw [← hk]
      exact List.mem_cons_self _ _
    · exact List.mem_cons_of_mem _ (ih h)

/-- Every entry of a map built by repeated `mapSet` over a pair list comes
from the accumulator or from the list. -/
theorem mem_foldl_mapSet {α β : Type} [DecidableEq α] (l : List (α × β)) :
    ∀ acc p, p ∈ l.foldl (fun a q => mapSet a q.1 q.2) acc →
      p ∈ acc ∨ p ∈ l := by
  induction l with
  | nil => intro acc p hp; exact .inl hp
  | cons q rest ih =>
    intro acc p hp
    rcases ih _ p hp with h | h
    · rcases mem_mapSet _ h with h' | h'
      · exact .inl h'
      · exact .inr (by rw [h']; exact List.mem_cons_self _ _)
    · exact .inr (List.mem_cons_of_mem _ h)

/-- Every entry of a transition table returned by the constructor loop is an
accumulator entry or a comma-joined key made of a declared source and a
declared symbol, mapping to a declared destination. -/
theorem buildTransitionFunction_ok_mem :
    ∀ (ts : List (Str × Str × Str)) {st al : List Str}
      {acc tf : List (Str × Str)},
      buildTransitionFunction st al acc ts = .ok tf →
      ∀ p ∈ tf, p ∈ acc ∨
        ∃ f a, p.1 = transKey f a ∧ f ∈ st ∧ a ∈ al ∧ p.2 ∈ st := by
  intro ts
  induction ts with
  | nil =>
    intro st al acc tf h p hp
    cases h
    exact .inl hp
  | cons t rest ih =>
    obtain ⟨f0, a0, t0⟩ := t
    intro st al acc tf h p hp
    simp only [buildTransitionFunction] at h
    split at h
    · exact Except.noConfusion h
    · split at h
      · exact Except.noConfusion h
      · rename_i h1 h2
        have hf0 : f0 ∈ st ∧ t0 ∈ st := by
          simpa using h1
        have ha0 : a0 ∈ al := by
          simpa using h2
        rcases ih h p hp with hin | hex
        · rcases mem_mapSet _ hin with hin' | hpkv
          · exact .inl hin'
          · exact .inr ⟨f0, a0, by rw [hpkv], hf0.1, ha0,
              by rw [hpkv]; exact hf0.2⟩
        · exact .inr hex

/-- When every triple is valid, the constructor loop succeeds and the table
is the left fold of `mapSet` over the keyed triples. -/
theorem buildTransitionFunction_ok_of_valid :
    ∀ (ts : List (Str × Str × Str)) (st al : List Str)
      (acc : List (Str × Str)),
      (∀ t ∈ ts, t.1 ∈ st ∧ t.2.1 ∈ al ∧ t.2.2 ∈ st) →
      buildTransitionFunction st al acc ts =
        .ok (ts.foldl
          (fun a t => mapSet a (transKey t.1 t.2.1) t.2.2) acc) := by
  intro ts
  induction ts with
  | nil => intro st al acc _; rfl
  | cons t rest ih =>
    intro st al acc hval
    obtain ⟨f0, a0, d0⟩ := t
    obtain ⟨h1, h2, h3⟩ := hval _ (List.mem_cons_self _ _)
    have hf : ¬ (!st.contains f0 || !st.contains d0) = true := by
      simp [h1, h3]
    have ha : ¬ (!al.contains a0) = true := by
      simp [h2]
    rw [buildTransitionFunction, if_neg hf, if_neg ha, List.foldl_cons]
    exact ih st al _ (fun t' ht' => hval t' (List.mem_cons_of_mem _ ht'))

/-- The constructor loop keeps the transition-table keys duplicate-free. -/
theorem buildTransitionFunction_ok_keys_nodup :
    ∀ (ts : List (Str × Str × Str)) {st al : List Str}
      {acc tf : List (Str × Str)},
      buildTransitionFunction st al acc ts = .ok tf →
      (acc.map Prod.fst).Nodup → (tf.map Prod.fst).Nodup := by
  intro ts
  induction ts with
  | nil =>
    intro st al acc tf h hacc
    cases h
    exact hacc
  | cons t rest ih =>
    intro st al acc tf h hacc
    obtain ⟨f0, a0, d0⟩ := t
    simp only [buildTransitionFunction] at h
    split at h
    · exact Except.noConfusion h
    · split at h
      · exact Except.noConfusion h
      · exact ih h (mapSet_keys_nodup _ _ _ hacc)

/-- Folding the re-keyed exported triples of a table whose keys are joined
comma-free parts is the same as folding the table's own entries. -/
theorem rebuild_transitions_foldl :
    ∀ (tfl : List (Str × Str)) (acc : List (Str × Str)),
      (∀ p ∈ tfl, ∃ f a, p.1 = transKey f a ∧ ',' ∉ f ∧ ',' ∉ a) →
      ((tfl.map (fun kv =>
          ((splitComma kv.1).getD 0 [], (splitComma kv.1).getD 1 [],
            kv.2))).foldl
        (fun a t => mapSet a (transKey t.1 t.2.1) t.2.2) acc) =
      tfl.foldl (fun a q => mapSet a q.1 q.2) acc := by
  intro tfl
  induction tfl with
  | nil => intro acc _; rfl
  | cons p rest ih =>
    intro acc hkeys
    obtain ⟨f, a, hk, hcf, hca⟩ := hkeys p (List.mem_cons_self _ _)
    have hsplit : splitComma p.1 = [f, a] := by
      rw [hk]
      exact splitComma_transKey f a hcf hca
    rw [List.map_cons, List.foldl_cons, List.foldl_cons]
    have hstep :
        mapSet acc (transKey ((splitComma p.1).getD 0 [])
          ((splitComma p.1).getD 1 [])) p.2 = mapSet acc p.1 p.2 := by
      rw [hsplit, hk]
      rfl
    rw [hstep]
    exact ih _ (fun q hq => hkeys q (List.mem_cons_of_mem _ hq))

/-- The field-level description of a successfully constructed machine. -/
theorem construct_ok {O : Type} (cfg : FSMConfig O) (m : FSM O)
    (h : construct cfg = .ok m) :
    m.states = jsDedup cfg.states ∧
    m.alphabet = jsDedup cfg.alphabet ∧
    m.initialState = cfg.initialState ∧
    m.currentState = cfg.initialState ∧
    m.acceptingStates = jsDedup cfg.acceptingStates ∧
    (jsDedup cfg.states).contains cfg.initialState = true ∧
    checkStatesDeclared (jsDedup cfg.states) cfg.acceptingStates = none ∧
    buildTransitionFunction (jsDedup cfg.states) (jsDedup cfg.alphabet) []
      cfg.transitions = .ok m.transitionFunction ∧
    checkOutputStates (jsDedup cfg.states) cfg.outputs = none ∧
    m.outputFunction = jsMapOfList cfg.outputs := by
  simp only [construct] at h
  split at h
  · exact Except.noConfusion h
  · rename_i hinit
    split at h
    · exact Except.noConfusion h
    · rename_i hacc
      split at h
      · exact Except.noConfusion h
      · rename_i tf htf
        split at h
        · exact Except.noConfusion h
        · rename_i hout
          cases h
          refine ⟨rfl, rfl, rfl, rfl, rfl, ?_, hacc, htf, hout, rfl⟩
          simpa using hinit

/-- When all four validation stages pass, construction returns the machine
record assembled from the de-duplicated sets and the built tables. -/
theorem construct_eq_ok {O : Type} (cfg : FSMConfig O) (tf : List (Str × Str))
    (h1 : (jsDedup cfg.states).contains cfg.initialState = true)
    (h2 : checkStatesDeclared (jsDedup cfg.states) cfg.acceptingStates = none)
    (h3 : buildTransitionFunction (jsDedup cfg.states) (jsDedup cfg.alphabet)
      [] cfg.transitions = .ok tf)
    (h4 : checkOutputStates (jsDedup cfg.states) cfg.outputs = none) :
    construct cfg = .ok (FSM.mk (jsDedup cfg.states) (jsDedup cfg.alphabet)
      cfg.initialState cfg.initialState (jsDedup cfg.acceptingStates) tf
      (jsMapOfList cfg.outputs)) := by
  have hm : cfg.initialState ∈ jsDedup cfg.states := by
    simpa using h1
  simp [construct, h2, h3, h4, hm]

/-- Every destination stored in a constructed machine's transition table is
a declared state. -/
theorem construct_transition_values {O : Type} {cfg : FSMConfig O}
    {m : FSM O} (h : construct cfg = .ok m) :
    ∀ k d, mapGet m.transitionFunction k = some d → d ∈ m.states := by
  obtain ⟨hst, _, _, _, _, _, _, htf, _, _⟩ := construct_ok cfg m h
  intro k d hkd
  rcases buildTransitionFunction_ok_mem cfg.transitions htf _
      (mapGet_mem hkd) with h0 | ⟨f, a, _, _, _, hd⟩
  · exact absurd h0 (List.not_mem_nil _)
  · rw [hst]
    exact hd

/-- The two constructor variants diverge on a configuration with both an
undeclared transition symbol and an undeclared output state: the
`src/index.ts` order (transitions before outputs) reports the symbol, the
unnamed variant's order (outputs before transitions) reports the output
state. -/
theorem construct_variants_diverge :
    construct dualBadConfig = .error (.invalidSymbol "9".toList) ∧
    constructV2 dualBadConfig = .error (.invalidState "Q".toList) :=
  ⟨rfl, rfl⟩

/-- The accepting-state loop throws exactly at the first undeclared state of
the list, in list order. -/
theorem checkStatesDeclared_eq_find (st : List Str) :
    ∀ l : List Str, checkStatesDeclared st l =
      (l.find? (fun s => !st.contains s)).map (fun s => .invalidState s) := by
  intro l
  induction l with
  | nil => rfl
  | cons s rest ih =>
    by_cases hs : st.contains s = true
    · rw [checkStatesDeclared, if_pos hs, ih, List.find?_cons_of_neg]
      simpa using hs
    · rw [checkStatesDeclared, if_neg hs, List.find?_cons_of_pos]
      · rfl
      · simpa using hs

/-- The output-state loop throws exactly at the first entry whose state is
undeclared, in list order. -/
theorem checkOutputStates_eq_find {O : Type} (st : List Str) :
    ∀ l : List (Str × O), checkOutputStates st l =
      (l.find? (fun p => !st.contains p.1)).map
        (fun p => .invalidState p.1) := by
  intro l
  induction l with
  | nil => rfl
  | cons p rest ih =>
    obtain ⟨s, o⟩ := p
    by_cases hs : st.contains s = true
    · rw [checkOutputStates, if_pos hs, ih, List.find?_cons_of_neg]
      simpa using hs
    · rw [checkOutputStates, if_neg hs, List.find?_cons_of_pos]
      · rfl
      · simpa using hs

/-- The accepting-state loop passes exactly when every listed state is
declared. -/
theorem checkStatesDeclared_none_iff {st l : List Str} :
    checkStatesDeclared st l = none ↔ ∀ s ∈ l, s ∈ st := by
  rw [checkStatesDeclared_eq_find]
  constructor
  · intro h s hs
    cases hfind : l.find? (fun s => !st.contains s) with
    | none =>
      rw [List.find?_eq_none] at hfind
      simpa using hfind s hs
    | some x =>
      rw [hfind] at h
      exact Option.noConfusion h
  · intro h
    have hfind : l.find? (fun s => !st.contains s) = none := by
      rw [List.find?_eq_none]
      intro s hs
      simpa using h s hs
    rw [hfind]
    rfl

/-- The output-state loop passes exactly when every entry's state is
declared. -/
theorem checkOutputStates_none_iff {O : Type} {st : List Str}
    {l : List (Str × O)} :
    checkOutputStates st l = none ↔ ∀ p ∈ l, p.1 ∈ st := by
  rw [checkOutputStates_eq_find]
  constructor
  · intro h p hp
    cases hfind : l.find? (fun q => !st.contains q.1) with
    | none =>
      rw [List.find?_eq_none] at hfind
      simpa using hfind p hp
    | some x =>
      rw [hfind] at h
      exact Option.noConfusion h
  · intro h
    have hfind : l.find? (fun q => !st.contains q.1) = none := by
      rw [List.find?_eq_none]
      intro p hp
      simpa using h p hp
    rw [hfind]
    rfl

/-- The transition loop succeeds when every triple is valid, and otherwise
throws at the first invalid triple in list order: `InvalidState` with the
combined `"from or to"` payload when an endpoint is undeclared, else
`InvalidSymbol`. -/
theorem buildTransitionFunction_error_char :
    ∀ (ts : List (Str × Str × Str)) (st al : List Str)
      (acc : List (Str × Str)),
      (ts.find? (badTransition st al) = none →
        ∃ tf, buildTransitionFunction st al acc ts = .ok tf) ∧
      (∀ t, ts.find? (badTransition st al) = some t →
        buildTransitionFunction st al acc ts = .error
          (if !st.contains t.1 || !st.contains t.2.2 then
            .invalidState (t.1 ++ (" or ").toList ++ t.2.2)
          else .invalidSymbol t.2.1)) := by
  intro ts
  induction ts with
  | nil =>
    intro st al acc
    exact ⟨fun _ => ⟨acc, rfl⟩, fun t ht => by simp at ht⟩
  | cons t0 rest ih =>
    intro st al acc
    obtain ⟨f0, a0, d0⟩ := t0
    by_cases hbad : badTransition st al (f0, a0, d0) = true
    · refine ⟨fun hn => ?_, fun t ht => ?_⟩
      · rw [List.find?_cons_of_pos _ hbad] at hn
        exact Option.noConfusion hn
      · rw [List.find?_cons_of_pos _ hbad] at ht
        cases ht
        by_cases hstbad : (!st.contains f0 || !st.contains d0) = true
        · rw [buildTransitionFunction, if_pos hstbad, if_pos hstbad]
        · have hsym : (!al.contains a0) = true := by
            simp only [badTransition] at hbad
            rcases Bool.or_eq_true_iff.mp hbad with h' | h'
            · exact absurd h' hstbad
            · exact h'
          rw [buildTransitionFunction, if_neg hstbad, if_pos hsym,
            if_neg hstbad]
    · have hparts : (f0 ∈ st ∧ d0 ∈ st) ∧ a0 ∈ al := by
        simpa [badTransition] using hbad
      have hf : ¬ (!st.contains f0 || !st.contains d0) = true := by
        simp [hparts.1.1, hparts.1.2]
      have ha : ¬ (!al.contains a0) = true := by
        simp [hparts.2]
      refine ⟨fun hn => ?_, fun t ht => ?_⟩
      · rw [List.find?_cons_of_neg _ hbad] at hn
        rw [buildTransitionFunction, if_neg hf, if_neg ha]
        exact (ih st al _).1 hn
      · rw [List.find?_cons_of_neg _ hbad] at ht
        rw [buildTransitionFunction, if_neg hf, if_neg ha]
        exact (ih st al _).2 t ht

/-- The stateful transition either leaves the machine unchanged or moves the
current state to a destination stored in the transition table. -/
theorem transitionV2_shape {O : Type} (m : FSM O) (a : Str) :
    (transitionV2 m a).2 = m ∨
    ∃ d, mapGet m.transitionFunction (transKey m.currentState a) = some d ∧
      (transitionV2 m a).2 = { m with currentState := d } := by
  simp only [transitionV2]
  split
  · exact .inl rfl
  · split
    · rename_i d hd
      split
      · exact .inl rfl
      · exact .inr ⟨d, hd, rfl⟩
    · exact .inl rfl

/-- The `process` loop only ever rewrites `currentState`, and only to
declared states (given a table whose destinations are declared). -/
theorem processGo_shape {O : Type} (input : List Char) :
    ∀ (m : FSM O),
      (∀ k d, mapGet m.transitionFunction k = some d → d ∈ m.states) →
      m.currentState ∈ m.states →
      ∃ s, (processGo m input).2 = { m with currentState := s } ∧
        s ∈ m.states := by
  induction input with
  | nil => intro m hv hc; exact ⟨m.currentState, rfl, hc⟩
  | cons c cs ih =>
    intro m hv hc
    by_cases hval : isValidSymbol m [c] = true
    · cases hmg : mapGet m.transitionFunction (transKey m.currentState [c]) with
      | none =>
        exact ⟨m.currentState,
          by simp [processGo, transitionV2, hval, hmg], hc⟩
      | some d =>
        by_cases hd : d = []
        · subst hd
          exact ⟨m.currentState,
            by simp [processGo, transitionV2, hval, hmg], hc⟩
        · rcases ih { m with currentState := d } hv (hv _ _ hmg) with
            ⟨s, hs, hsm⟩
          refine ⟨s, ?_, hsm⟩
          simp only [processGo, transitionV2, hval, hmg, hd,
            Bool.not_true, Bool.false_or, if_false, ite_false]
          simpa using hs
    · have hval' : isValidSymbol m [c] = false := by
        simpa using hval
      exact ⟨m.currentState,
        by simp [processGo, transitionV2, hval'], hc⟩

/-- Any sequence of public operations only rewrites `currentState`, and
always to a declared state. -/
theorem foldl_applyOp_shape {O : Type} (ops : List Op) :
    ∀ (m : FSM O),
      m.initialState ∈ m.states →
      (∀ k d, mapGet m.transitionFunction k = some d → d ∈ m.states) →
      m.currentState ∈ m.states →
      ∃ s, ops.foldl applyOp m = { m with currentState := s } ∧
        s ∈ m.states := by
  induction ops with
  | nil => intro m h1 h2 h3; exact ⟨m.currentState, rfl, h3⟩
  | cons op rest ih =>
    intro m h1 h2 h3
    have hstep : ∃ s1, applyOp m op = { m with currentState := s1 } ∧
        s1 ∈ m.states := by
      cases op with
      | advanceOp a =>
        rcases transitionV2_shape m a with heq | ⟨d, hd, heq⟩
        · exact ⟨m.currentState, by simp [applyOp, heq], h3⟩
        · exact ⟨d, by simp [applyOp, heq], h2 _ _ hd⟩
      | processOp input =>
        rcases processGo_shape input (reset m) h2 h1 with ⟨s, hs, hsm⟩
        exact ⟨s, by simpa [applyOp, processChars] using hs, hsm⟩
      | resetOp => exact ⟨m.initialState, rfl, h1⟩
      | queryOp => exact ⟨m.currentState, rfl, h3⟩
    rcases hstep with ⟨s1, hs1, hs1m⟩
    rcases ih { m with currentState := s1 } h1 h2 hs1m with ⟨s, hs, hsm⟩
    refine ⟨s, ?_, hsm⟩
    rw [List.foldl_cons, hs1]
    exact hs

/-- Wherever the `process` loop stops — normally or at a thrown error — the
machine's current state is the fold of the successfully consumed prefix. -/
theorem processGo_currentState {O : Type} (input : List Char) :
    ∀ m : FSM O, ((processGo m input).2).currentState =
      specLastReached m.alphabet m.transitionFunction m.currentState input := by
  induction input with
  | nil => intro m; rfl
  | cons c cs ih =>
    intro m
    by_cases hval : isValidSymbol m [c] = true
    · have hv2 : m.alphabet.contains [c] = true := hval
      cases hmg : mapGet m.transitionFunction (transKey m.currentState [c]) with
      | none =>
        simp [processGo, transitionV2, specLastReached, hval, hv2, hmg]
      | some d =>
        by_cases hd : d = []
        · subst hd
          simp [processGo, transitionV2, specLastReached, hval, hv2, hmg]
        · have hih := ih { m with currentState := d }
          simp only [processGo, transitionV2, specLastReached, hval, hv2,
            hmg, hd, Bool.not_true, Bool.false_or, if_false, if_true,
            ite_false, ite_true] at hih ⊢
          simpa [hd] using hih
    · have hv3 : ([c] : Str) ∉ m.alphabet := by
        simpa [isValidSymbol] using hval
      simp [processGo, transitionV2, specLastReached, isValidSymbol, hv3]

/-! ### C1 — traffic-light scenario -/

/-- C1, counterexample: on the traffic-light machine whose alphabet is the
four-character symbol `"Next"`, `process("NextNextNext")` does not return
`{accepted: true, output: "Stop", finalState: "Red"}`; because the input
string is consumed one character at a time, the very first character `"N"`
is not in the alphabet and `process` throws `InvalidSymbolError("N")`. -/
theorem traffic_process_string_counterexample :
    (construct trafficConfig).map
      (fun m => (processChars m "NextNextNext".toList).1) =
      .ok (.error (.invalidSymbol "N".toList)) ∧
    (Except.ok (Except.error (.invalidSymbol "N".toList)) :
        Except FSMError (Except FSMError (ProcessResult Str))) ≠
      .ok (.ok { accepted := true, output := some "Stop".toList,
                 finalState := "Red".toList }) := by
  constructor
  · rfl
  · decide

/-- C1, amended: on the traffic-light machine with the symbol renamed to the
single character `"N"` (states `{Red, Yellow, Green}`, initial `Red`,
accepting `{Red, Green}`, transitions `Red→Green`, `Green→Yellow`,
`Yellow→Red` on `N`, outputs `Red→"Stop"`, `Green→"Go"`,
`Yellow→"Prepare to stop"`), `process("NNN")` returns
`{accepted: true, output: "Stop", finalState: "Red"}`. -/
theorem traffic_process_single_char_symbols :
    (construct trafficConfigN).map
      (fun m => (processChars m "NNN".toList).1) =
      .ok (.ok { accepted := true, output := some "Stop".toList,
                 finalState := "Red".toList }) := rfl

/-! ### C10 — comma-joined transition-table key collision -/

/-- C10: in the valid configuration `commaConfig`, whose state `"A,b"`
contains a comma, the two distinct declared pairs `("A,b", "x")` and
`("A", "b,x")` are stored under the same comma-joined key, so the transition
declared for `("A", "b,x")` (destination `"U"`) overrides the result the
pure transition query returns for `("A,b", "x")` (declared destination
`"T"`), and the exported structure lists the single triple
`("A", "b", "U")`, which is different from every triple supplied at
construction. -/
theorem comma_key_collision :
    (∃ m, construct commaConfig = .ok m) ∧
    "A,b".toList ≠ "A".toList ∧
    commaConfig.states.contains "A,b".toList = true ∧
    commaConfig.states.contains "A".toList = true ∧
    commaConfig.alphabet.contains "x".toList = true ∧
    commaConfig.alphabet.contains "b,x".toList = true ∧
    transKey "A,b".toList "x".toList = transKey "A".toList "b,x".toList ∧
    ("A,b".toList, "x".toList, "T".toList) ∈ commaConfig.transitions ∧
    (construct commaConfig).map
      (fun m => transition m "A,b".toList "x".toList) =
      .ok (.ok (some "U".toList)) ∧
    ("A,b".toList, "x".toList, "U".toList) ∉ commaConfig.transitions ∧
    (construct commaConfig).map (fun m => (getStructure m).transitions) =
      .ok [("A".toList, "b".toList, "U".toList)] ∧
    ("A".toList, "b".toList, "U".toList) ∉ commaConfig.transitions := by
  refine ⟨⟨_, rfl⟩, ?_, rfl, rfl, rfl, rfl, rfl, ?_, rfl, ?_, rfl, ?_⟩ <;>
    decide

/-! ### C2 — export / re-construction round trip -/

/-- C2, counterexample: `commaConfig` constructs successfully, but
re-constructing a machine from its exported structure does not yield a
machine at all — the exported transition triple `("A", "b", "U")` has the
symbol `"b"`, which is not in the declared alphabet, so the re-construction
throws `InvalidSymbolError("b")`. -/
theorem roundtrip_comma_counterexample :
    (construct commaConfig).map (fun m => construct (getStructure m)) =
      .ok (.error (.invalidSymbol "b".toList)) := rfl

/-- C2, amended: for every configuration that constructs successfully and
whose state names and alphabet symbols contain no `','` character,
re-constructing a machine from the exported structure succeeds and yields a
machine whose declared state set, alphabet, accepting-state set, transition
table and output table agree with the original's (here even element-wise,
so in particular as sets, regardless of iteration order). -/
theorem roundtrip_commaFree {O : Type} (cfg : FSMConfig O) (m : FSM O)
    (hcon : construct cfg = .ok m)
    (hsc : ∀ s ∈ cfg.states, ',' ∉ s)
    (hac : ∀ a ∈ cfg.alphabet, ',' ∉ a) :
    ∃ m', construct (getStructure m) = .ok m' ∧
      (∀ x : Str, x ∈ m'.states ↔ x ∈ m.states) ∧
      (∀ x : Str, x ∈ m'.alphabet ↔ x ∈ m.alphabet) ∧
      (∀ x : Str, x ∈ m'.acceptingStates ↔ x ∈ m.acceptingStates) ∧
      (∀ k, mapGet m'.transitionFunction k = mapGet m.transitionFunction k) ∧
      (∀ s, mapGet m'.outputFunction s = mapGet m.outputFunction s) := by
  obtain ⟨hst, hal, hinit, hcur, haccf, hc, hacc, htf, hout, houtf⟩ :=
    construct_ok cfg m hcon
  have hentry : ∀ p ∈ m.transitionFunction,
      ∃ f a, p.1 = transKey f a ∧ f ∈ m.states ∧ a ∈ m.alphabet ∧
        p.2 ∈ m.states ∧ ',' ∉ f ∧ ',' ∉ a := by
    intro p hp
    rcases buildTransitionFunction_ok_mem cfg.transitions htf p hp with
      h0 | ⟨f, a, hk, hf, ha, hd⟩
    · exact absurd h0 (List.not_mem_nil _)
    · refine ⟨f, a, hk, ?_, ?_, ?_, ?_, ?_⟩
      · rw [hst]; exact hf
      · rw [hal]; exact ha
      · rw [hst]; exact hd
      · exact hsc f ((jsDedup_mem _ _).mp hf)
      · exact hac a ((jsDedup_mem _ _).mp ha)
  have hstid : jsDedup m.states = m.states := by
    rw [hst, jsDedup_idem]
  have halid : jsDedup m.alphabet = m.alphabet := by
    rw [hal, jsDedup_idem]
  have haccid : jsDedup m.acceptingStates = m.acceptingStates := by
    rw [haccf, jsDedup_idem]
  have hcont : m.initialState ∈ m.states := by
    rw [hst, hinit]
    simpa using hc
  have hcheckacc : checkStatesDeclared m.states m.acceptingStates = none := by
    rw [checkStatesDeclared_none_iff]
    intro s hsmem
    have hs : s ∈ cfg.acceptingStates := by
      rw [haccf] at hsmem
      exact (jsDedup_mem _ _).mp hsmem
    rw [hst]
    exact checkStatesDeclared_none_iff.mp hacc s hs
  have hexp : (getStructure m).transitions = m.transitionFunction.map
      (fun kv => ((splitComma kv.1).getD 0 [], (splitComma kv.1).getD 1 [],
        kv.2)) := rfl
  have hvalid : ∀ t ∈ (getStructure m).transitions,
      t.1 ∈ m.states ∧ t.2.1 ∈ m.alphabet ∧ t.2.2 ∈ m.states := by
    intro t ht
    rw [hexp, List.mem_map] at ht
    obtain ⟨p, hp, rfl⟩ := ht
    obtain ⟨f, a, hk, hf, ha, hd, hcf, hca⟩ := hentry p hp
    have hsplit : splitComma p.1 = [f, a] := by
      rw [hk]
      exact splitComma_transKey f a hcf hca
    rw [hsplit]
    exact ⟨hf, ha, hd⟩
  have hkeys2 : ∀ p ∈ m.transitionFunction,
      ∃ f a, p.1 = transKey f a ∧ ',' ∉ f ∧ ',' ∉ a := by
    intro p hp
    obtain ⟨f, a, hk, _, _, _, hcf, hca⟩ := hentry p hp
    exact ⟨f, a, hk, hcf, hca⟩
  have hkeysnd : (m.transitionFunction.map Prod.fst).Nodup :=
    buildTransitionFunction_ok_keys_nodup cfg.transitions htf
      List.nodup_nil
  have hfoldid : m.transitionFunction.foldl
      (fun a q => mapSet a q.1 q.2) [] = m.transitionFunction := by
    have := foldl_mapSet_eq_append m.transitionFunction []
      (by simpa using hkeysnd)
    simpa using this
  have hcheckout : checkOutputStates m.states m.outputFunction = none := by
    rw [checkOutputStates_none_iff]
    intro p hp
    have hpcfg : p ∈ cfg.outputs := by
      rw [houtf, jsMapOfList] at hp
      rcases mem_foldl_mapSet cfg.outputs [] p hp with h0 | h1
      · exact absurd h0 (List.not_mem_nil _)
      · exact h1
    rw [hst]
    exact checkOutputStates_none_iff.mp hout p hpcfg
  have houtid : jsMapOfList m.outputFunction = m.outputFunction := by
    apply jsMapOfList_eq_self
    rw [houtf]
    exact jsMapOfList_keys_nodup _
  have hcurinit : m.currentState = m.initialState := by
    rw [hcur, hinit]
  have e1 : (getStructure m).states = m.states := rfl
  have e2 : (getStructure m).alphabet = m.alphabet := rfl
  have e3 : (getStructure m).initialState = m.initialState := rfl
  have e4 : (getStructure m).acceptingStates = m.acceptingStates := rfl
  have e5 : (getStructure m).outputs = m.outputFunction := rfl
  have h1' : (jsDedup (getStructure m).states).contains
      (getStructure m).initialState = true := by
    rw [e1, e3, hstid]
    simpa using hcont
  have h2' : checkStatesDeclared (jsDedup (getStructure m).states)
      (getStructure m).acceptingStates = none := by
    rw [e1, e4, hstid]
    exact hcheckacc
  have h3' : buildTransitionFunction (jsDedup (getStructure m).states)
      (jsDedup (getStructure m).alphabet) [] (getStructure m).transitions =
      .ok m.transitionFunction := by
    rw [e1, e2, hstid, halid,
      buildTransitionFunction_ok_of_valid _ m.states m.alphabet [] hvalid,
      hexp, rebuild_transitions_foldl m.transitionFunction [] hkeys2,
      hfoldid]
  have h4' : checkOutputStates (jsDedup (getStructure m).states)
      (getStructure m).outputs = none := by
    rw [e1, e5, hstid]
    exact hcheckout
  have happ := construct_eq_ok (getStructure m) m.transitionFunction
    h1' h2' h3' h4'
  have hmk : FSM.mk m.states m.alphabet m.initialState m.initialState
      m.acceptingStates m.transitionFunction m.outputFunction = m := by
    nth_rewrite 2 [← hcurinit]
    rfl
  refine ⟨m, ?_, fun x => Iff.rfl, fun x => Iff.rfl, fun x => Iff.rfl,
    fun k => rfl, fun s => rfl⟩
  rw [happ, e1, e2, e3, e4, e5, hstid, halid, haccid, houtid, hmk]

/-- C2, witness: the round trip on the comma-free `roundConfig` machine. -/
theorem roundtrip_commaFree_witness :
    construct roundConfig = .ok roundMachine ∧
    (∀ s ∈ roundConfig.states, ',' ∉ s) ∧
    (∀ a ∈ roundConfig.alphabet, ',' ∉ a) ∧
    (∃ m', construct (getStructure roundMachine) = .ok m' ∧
      (∀ x : Str, x ∈ m'.states ↔ x ∈ roundMachine.states) ∧
      (∀ x : Str, x ∈ m'.alphabet ↔ x ∈ roundMachine.alphabet) ∧
      (∀ x : Str,
        x ∈ m'.acceptingStates ↔ x ∈ roundMachine.acceptingStates) ∧
      (∀ k, mapGet m'.transitionFunction k =
        mapGet roundMachine.transitionFunction k) ∧
      (∀ s, mapGet m'.outputFunction s =
        mapGet roundMachine.outputFunction s)) :=
  ⟨by decide, by decide, by decide,
    roundtrip_commaFree roundConfig roundMachine (by decide) (by decide)
      (by decide)⟩

/-! ### C3 — the pure transition query -/

/-- C3, counterexample: in the machine built from `emptyDestConfig`, the
transition table defines the declared state `""` as the destination of the
declared pair `("A", "x")`, yet the pure transition query returns the
no-transition `null` value instead of that destination, because the source
computes `nextState || null` and the empty string is falsy. -/
theorem transition_empty_destination_counterexample :
    (∃ m, construct emptyDestConfig = .ok m ∧
      m.states.contains ([] : Str) = true ∧
      mapGet m.transitionFunction (transKey "A".toList "x".toList) =
        some ([] : Str) ∧
      transition m "A".toList "x".toList = .ok none) ∧
    (Except.ok none : Except FSMError (Option Str)) ≠ .ok (some []) := by
  refine ⟨⟨_, rfl, rfl, rfl, rfl⟩, by decide⟩

/-- C3, amended: for every machine, the pure transition query
`transition(state, symbol)` returns the mapped destination whenever the
transition table defines a non-empty destination for the pair, returns the
`null` no-transition value whenever the pair is undefined — and also when
the defined destination is the empty string, a falsy value which
`nextState || null` coerces to `null` — does not mutate the machine (it is
a pure function of it), and fails with `InvalidState` for an undeclared
state argument and `InvalidSymbol` for an undeclared symbol argument, both
checked before the lookup. -/
theorem transition_query_behavior {O : Type} (m : FSM O) (s a : Str) :
    (isValidState m s = false →
      transition m s a = .error (.invalidState s)) ∧
    (isValidState m s = true → isValidSymbol m a = false →
      transition m s a = .error (.invalidSymbol a)) ∧
    (isValidState m s = true → isValidSymbol m a = true →
      mapGet m.transitionFunction (transKey s a) = none →
      transition m s a = .ok none) ∧
    (isValidState m s = true → isValidSymbol m a = true →
      ∀ d, d ≠ [] → mapGet m.transitionFunction (transKey s a) = some d →
      transition m s a = .ok (some d)) ∧
    (isValidState m s = true → isValidSymbol m a = true →
      mapGet m.transitionFunction (transKey s a) = some [] →
      transition m s a = .ok none) := by
  refine ⟨fun h1 => ?_, fun h1 h2 => ?_, fun h1 h2 h3 => ?_,
    fun h1 h2 d hd h3 => ?_, fun h1 h2 h3 => ?_⟩
  · simp [transition, h1]
  · simp [transition, h1, h2]
  · simp [transition, h1, h2, h3, jsOrNull]
  · simp [transition, h1, h2, h3, jsOrNull, hd]
  · simp [transition, h1, h2, h3, jsOrNull]

/-- C3, witness: the amended transition-query behaviour instantiated on
`sampleMachine`. -/
theorem transition_query_behavior_witness :
    (isValidState sampleMachine "A".toList = true ∧
      isValidSymbol sampleMachine "0".toList = true ∧
      mapGet sampleMachine.transitionFunction
        (transKey "A".toList "0".toList) = some "B".toList ∧
      "B".toList ≠ ([] : Str) ∧
      transition sampleMachine "A".toList "0".toList =
        .ok (some "B".toList)) ∧
    (isValidState sampleMachine "Z".toList = false ∧
      transition sampleMachine "Z".toList "0".toList =
        .error (.invalidState "Z".toList)) ∧
    (isValidSymbol sampleMachine "9".toList = false ∧
      transition sampleMachine "B".toList "9".toList =
        .error (.invalidSymbol "9".toList)) ∧
    (mapGet sampleMachine.transitionFunction
        (transKey "B".toList "0".toList) = none ∧
      transition sampleMachine "B".toList "0".toList = .ok none) := by
  refine ⟨⟨by decide, by decide, by decide, by decide, ?_⟩,
    ⟨by decide, ?_⟩, ⟨by decide, ?_⟩, ⟨by decide, ?_⟩⟩
  · exact (transition_query_behavior sampleMachine "A".toList
      "0".toList).2.2.2.1 (by decide) (by decide) "B".toList (by decide)
      (by decide)
  · exact (transition_query_behavior sampleMachine "Z".toList
      "0".toList).1 (by decide)
  · exact (transition_query_behavior sampleMachine "B".toList
      "9".toList).2.1 (by decide) (by decide)
  · exact (transition_query_behavior sampleMachine "B".toList
      "0".toList).2.2.1 (by decide) (by decide) (by decide)

/-! ### C5 — the stateful advance operation -/

/-- C5, counterexample: in the machine built from `emptyDestConfig`
(current state `"A"`), the transition table defines the declared state `""`
as the destination of `(currentState, "x")`, yet the stateful transition
returns the no-transition `null` value and leaves the current state
unchanged, instead of moving to `""` and returning it: `if (nextState)` and
`nextState || null` both treat the empty string as falsy. -/
theorem advance_empty_destination_counterexample :
    (∃ m, construct emptyDestConfig = .ok m ∧
      m.currentState = "A".toList ∧
      mapGet m.transitionFunction (transKey m.currentState "x".toList) =
        some ([] : Str) ∧
      transitionV2 m "x".toList = (.ok none, m)) ∧
    (Except.ok none : Except FSMError (Option Str)) ≠ .ok (some []) := by
  refine ⟨⟨_, rfl, rfl, rfl, rfl⟩, by decide⟩

/-- C5, amended: for every machine and symbol, the stateful advance
(`transition(input)` of the unnamed variant): if the table defines a
non-empty destination for `(currentState, symbol)`, the current state
becomes that destination and it is returned; if the pair is undefined — or
its defined destination is the empty string, which the truthiness tests
coerce to "no transition" — the current state is unchanged and `null` is
returned; and an undeclared symbol fails with `InvalidSymbol`, leaving the
machine unchanged. -/
theorem advance_behavior {O : Type} (m : FSM O) (a : Str) :
    (isValidSymbol m a = false →
      transitionV2 m a = (.error (.invalidSymbol a), m)) ∧
    (isValidSymbol m a = true →
      mapGet m.transitionFunction (transKey m.currentState a) = none →
      transitionV2 m a = (.ok none, m)) ∧
    (isValidSymbol m a = true → ∀ d, d ≠ [] →
      mapGet m.transitionFunction (transKey m.currentState a) = some d →
      transitionV2 m a = (.ok (some d), { m with currentState := d })) ∧
    (isValidSymbol m a = true →
      mapGet m.transitionFunction (transKey m.currentState a) = some [] →
      transitionV2 m a = (.ok none, m)) := by
  refine ⟨fun h1 => ?_, fun h1 h2 => ?_, fun h1 d hd h2 => ?_,
    fun h1 h2 => ?_⟩
  · simp [transitionV2, h1]
  · simp [transitionV2, h1, h2]
  · simp [transitionV2, h1, h2, hd]
  · simp [transitionV2, h1, h2]

/-- C5, witness: the amended advance behaviour instantiated on
`sampleMachine` (current state `"B"`) and its reset (current state
`"A"`). -/
theorem advance_behavior_witness :
    (isValidSymbol (reset sampleMachine) "0".toList = true ∧
      "B".toList ≠ ([] : Str) ∧
      mapGet (reset sampleMachine).transitionFunction
        (transKey (reset sampleMachine).currentState "0".toList) =
        some "B".toList ∧
      transitionV2 (reset sampleMachine) "0".toList =
        (.ok (some "B".toList),
          { reset sampleMachine with currentState := "B".toList })) ∧
    (mapGet sampleMachine.transitionFunction
        (transKey sampleMachine.currentState "0".toList) = none ∧
      transitionV2 sampleMachine "0".toList = (.ok none, sampleMachine)) ∧
    (isValidSymbol sampleMachine "9".toList = false ∧
      transitionV2 sampleMachine "9".toList =
        (.error (.invalidSymbol "9".toList), sampleMachine)) := by
  refine ⟨⟨by decide, by decide, by decide, ?_⟩, ⟨by decide, ?_⟩,
    ⟨by decide, ?_⟩⟩
  · exact (advance_behavior (reset sampleMachine) "0".toList).2.2.1
      (by decide) "B".toList (by decide) (by decide)
  · exact (advance_behavior sampleMachine "0".toList).2.1
      (by decide) (by decide)
  · exact (advance_behavior sampleMachine "9".toList).1 (by decide)

/-! ### C6 — reset idempotence and the empty input -/

/-- C6: for every machine whose initial state is declared, resetting any
positive number of times with no intervening transition leaves
`getCurrentState()` at the initial state, and `process("")` returns exactly
the triple obtained by a fresh `reset()` followed by the acceptance, output
and current-state queries (and leaves the machine reset). -/
theorem reset_idempotent_empty_process {O : Type} (m : FSM O) (n : Nat)
    (hn : 0 < n) (hv : isValidState m m.initialState = true) :
    getCurrentState (reset^[n] m) = m.initialState ∧
    processChars m [] =
      (.ok { accepted := isInAcceptingState (reset m)
             output := getOutputCur (reset m)
             finalState := getCurrentState (reset m) }, reset m) := by
  constructor
  · obtain ⟨k, rfl⟩ := Nat.exists_eq_add_of_lt hn
    rw [Nat.zero_add, Function.iterate_succ_apply,
      Function.iterate_fixed (rfl : reset (reset m) = reset m) k]
    rfl
  · have hv' : m.initialState ∈ m.states := by
      simpa [isValidState] using hv
    simp [processChars, processGo, finishProcess, reset,
      isInAcceptingState, getOutputCur, getCurrentState,
      jsUndefinedToNull_eq, isValidState, hv']

/-- C6, witness: reset idempotence and the empty-input process on
`sampleMachine` with three resets. -/
theorem reset_idempotent_empty_process_witness :
    0 < 3 ∧ isValidState sampleMachine sampleMachine.initialState = true ∧
    (getCurrentState (reset^[3] sampleMachine) = sampleMachine.initialState ∧
      processChars sampleMachine [] =
        (.ok { accepted := isInAcceptingState (reset sampleMachine)
               output := getOutputCur (reset sampleMachine)
               finalState := getCurrentState (reset sampleMachine) },
          reset sampleMachine)) :=
  ⟨by decide, by decide,
    reset_idempotent_empty_process sampleMachine 3 (by decide) (by decide)⟩

/-! ### C7 — output absence is distinct from falsy outputs -/

/-- C7: for every machine and declared state with no output entry, the
output query reports the absent value `none`, and any configured output
value `v` — including falsy values such as the empty string — is reported
as `some v`, never confused with the absent value; moreover the output
field of every successful `process` result is exactly the output-table
lookup at the final state (absent when the table has no entry there). -/
theorem output_absence_distinct {O : Type} (m : FSM O) (s : Str)
    (input : List Char) (r : ProcessResult O) :
    (isValidState m s = true → mapGet m.outputFunction s = none →
      getOutputQ m s = .ok none) ∧
    (isValidState m s = true → ∀ v, mapGet m.outputFunction s = some v →
      getOutputQ m s = .ok (some v) ∧ getOutputQ m s ≠ .ok none) ∧
    ((processChars m input).1 = .ok r →
      r.output = mapGet m.outputFunction r.finalState) := by
  refine ⟨fun h1 h2 => ?_, fun h1 v h2 => ⟨?_, ?_⟩, fun h => ?_⟩
  · simp [getOutputQ, h1, h2]
  · simp [getOutputQ, h1, h2]
  · simp [getOutputQ, h1, h2]
  · exact processGo_ok_output input (reset m) r h

/-- C7, witness: on `sampleMachine`, the state `"B"` has no output entry
and is reported absent (also through `process("0")`, which ends at `"B"`),
while the state `"A"` is configured with the falsy empty-string output and
is reported as `some ""`, distinct from absent. -/
theorem output_absence_distinct_witness :
    (isValidState sampleMachine "B".toList = true ∧
      mapGet sampleMachine.outputFunction "B".toList = none ∧
      getOutputQ sampleMachine "B".toList = .ok none) ∧
    (isValidState sampleMachine "A".toList = true ∧
      mapGet sampleMachine.outputFunction "A".toList = some ([] : Str) ∧
      getOutputQ sampleMachine "A".toList = .ok (some ([] : Str)) ∧
      getOutputQ sampleMachine "A".toList ≠ .ok none) ∧
    ((processChars sampleMachine "0".toList).1 =
        .ok { accepted := true, output := none,
              finalState := "B".toList } ∧
      ({ accepted := true, output := none,
         finalState := "B".toList } : ProcessResult Str).output =
        mapGet sampleMachine.outputFunction "B".toList) := by
  refine ⟨⟨by decide, by decide, ?_⟩, ⟨by decide, by decide, ?_, ?_⟩,
    ⟨by decide, ?_⟩⟩
  · exact (output_absence_distinct sampleMachine "B".toList []
      { accepted := false, output := none, finalState := [] }).1
      (by decide) (by decide)
  · exact ((output_absence_distinct sampleMachine "A".toList []
      { accepted := false, output := none, finalState := [] }).2.1
      (by decide) ([] : Str) (by decide)).1
  · exact ((output_absence_distinct sampleMachine "A".toList []
      { accepted := false, output := none, finalState := [] }).2.1
      (by decide) ([] : Str) (by decide)).2
  · exact (output_absence_distinct sampleMachine "B".toList "0".toList
      { accepted := true, output := none, finalState := "B".toList }).2.2
      (by decide)

/-! ### C8 — the current state is always one declared state -/

/-- C8: for every successfully constructed machine and any sequence of
public operations (stateful transition, `process` — whether it returns or
throws — `reset`, and the read-only queries), the machine still has exactly
one current state (the single `currentState` field), the declared state set
is unchanged, and the current state is a member of it. -/
theorem current_state_always_declared {O : Type} (cfg : FSMConfig O)
    (m : FSM O) (ops : List Op) (h : construct cfg = .ok m) :
    (ops.foldl applyOp m).states = m.states ∧
    (ops.foldl applyOp m).currentState ∈ m.states := by
  obtain ⟨hst, _, hinit, hcur, _, hc, _, _, _, _⟩ := construct_ok cfg m h
  have h1 : m.initialState ∈ m.states := by
    rw [hinit, hst]
    simpa using hc
  have h3 : m.currentState ∈ m.states := by
    rw [hcur, hst]
    simpa using hc
  rcases foldl_applyOp_shape ops m h1 (construct_transition_values h) h3 with
    ⟨s, hs, hsm⟩
  rw [hs]
  exact ⟨rfl, hsm⟩

/-- C8, witness: the machine built from `trafficConfigN`, driven through a
successful `process`, a stateful transition, a reset, a query, and a
`process` call that throws midway, still has its current state in the
declared state set. -/
theorem current_state_always_declared_witness :
    construct trafficConfigN = .ok trafficMachineN ∧
    (([Op.processOp "NN".toList, Op.advanceOp "N".toList, Op.resetOp,
        Op.queryOp, Op.processOp "NX".toList].foldl applyOp
        trafficMachineN).states = trafficMachineN.states ∧
      ([Op.processOp "NN".toList, Op.advanceOp "N".toList, Op.resetOp,
        Op.queryOp, Op.processOp "NX".toList].foldl applyOp
        trafficMachineN).currentState ∈ trafficMachineN.states) :=
  ⟨by decide, current_state_always_declared trafficConfigN trafficMachineN
    [Op.processOp "NN".toList, Op.advanceOp "N".toList, Op.resetOp,
      Op.queryOp, Op.processOp "NX".toList] (by decide)⟩

/-! ### C9 — a failing `process` leaves the machine at the failure point -/

/-- C9: whenever `process(input)` fails (with `InvalidSymbol` or with the
no-transition error), the machine's current state is left at the last state
successfully reached during that call — the fold of the successfully
consumed prefix from the initial state, which is the initial state itself
when no symbol was consumed (`specLastReached _ _ s [] = s`) — and the
result does not depend on the current state held before the call (so the
state is in particular not restored to it). -/
theorem process_failure_last_reached {O : Type} (m : FSM O)
    (input : List Char) (e : FSMError)
    (h : (processChars m input).1 = .error e) :
    getCurrentState (processChars m input).2 =
      specLastReached m.alphabet m.transitionFunction m.initialState input ∧
    ∀ s0 : Str, processChars { m with currentState := s0 } input =
      processChars m input := by
  refine ⟨?_, fun s0 => rfl⟩
  exact processGo_currentState input (reset m)

/-- C9, witness: `process("00")` on `sampleMachine` throws the no-transition
error after consuming the first `"0"`, and the machine is left at `"B"`,
the last state successfully reached, independently of the pre-call current
state. -/
theorem process_failure_last_reached_witness :
    (processChars sampleMachine "00".toList).1 =
      .error (.noTransition "B".toList "0".toList) ∧
    getCurrentState (processChars sampleMachine "00".toList).2 =
      specLastReached sampleMachine.alphabet
        sampleMachine.transitionFunction sampleMachine.initialState
        "00".toList ∧
    processChars { sampleMachine with currentState := "B".toList }
        "00".toList = processChars sampleMachine "00".toList ∧
    specLastReached sampleMachine.alphabet sampleMachine.transitionFunction
        sampleMachine.initialState "00".toList = "B".toList :=
  ⟨by decide,
    (process_failure_last_reached sampleMachine "00".toList
      (.noTransition "B".toList "0".toList) (by decide)).1,
    (process_failure_last_reached sampleMachine "00".toList
      (.noTransition "B".toList "0".toList) (by decide)).2 "B".toList,
    by decide⟩

/-! ### C4 — construction validation order and error naming -/

/-- C4, counterexample: in `badDestConfig` only the transition destination
`"Z"` is undeclared (the source `"A"` is declared), yet construction raises
`InvalidState` carrying the combined payload `"A or Z"` — the string
interpolation `` `${fromState} or ${toState}` `` — which is neither the
offending state `"Z"` nor any declared state, so the error does not "name
whichever of source/destination is invalid". -/
theorem construct_transition_naming_counterexample :
    construct badDestConfig = .error (.invalidState ("A or Z").toList) ∧
    ("A or Z").toList ≠ "Z".toList ∧
    ("A or Z").toList ≠ "A".toList ∧
    (∀ s ∈ badDestConfig.states, ("A or Z").toList ≠ s) :=
  ⟨rfl, by decide, by decide, by decide⟩

/-- C4, amended (for the shipped `src/index.ts` constructor): construction
validates in the order (a) initial state, (b) accepting states, (c)
transitions, (d) outputs, failing fast at the first violation in list
order; violations in (a), (b) and (d) raise `InvalidState` naming the
offending state; a violation in (c) raises `InvalidState` carrying the
combined string `"<source> or <destination>"` whenever an endpoint is
undeclared (even if only one is — a deterministic payload, but not the
single offending state), and `InvalidSymbol` naming the symbol otherwise;
when every check passes, construction succeeds.  (The unnamed variant
`src/unnamed/part_000` instead checks outputs before transitions and names
the single invalid endpoint.) -/
theorem construct_validation_order {O : Type} (cfg : FSMConfig O) :
    ((jsDedup cfg.states).contains cfg.initialState = false →
      construct cfg = .error (.invalidState cfg.initialState)) ∧
    ((jsDedup cfg.states).contains cfg.initialState = true →
      ∀ s, cfg.acceptingStates.find?
          (fun x => !(jsDedup cfg.states).contains x) = some s →
        construct cfg = .error (.invalidState s)) ∧
    ((jsDedup cfg.states).contains cfg.initialState = true →
      cfg.acceptingStates.find?
        (fun x => !(jsDedup cfg.states).contains x) = none →
      ∀ t, cfg.transitions.find?
          (badTransition (jsDedup cfg.states) (jsDedup cfg.alphabet)) =
          some t →
        construct cfg = .error
          (if !(jsDedup cfg.states).contains t.1 ||
              !(jsDedup cfg.states).contains t.2.2 then
            .invalidState (t.1 ++ (" or ").toList ++ t.2.2)
          else .invalidSymbol t.2.1)) ∧
    ((jsDedup cfg.states).contains cfg.initialState = true →
      cfg.acceptingStates.find?
        (fun x => !(jsDedup cfg.states).contains x) = none →
      cfg.transitions.find?
        (badTransition (jsDedup cfg.states) (jsDedup cfg.alphabet)) = none →
      ∀ p, cfg.outputs.find?
          (fun q => !(jsDedup cfg.states).contains q.1) = some p →
        construct cfg = .error (.invalidState p.1)) ∧
    ((jsDedup cfg.states).contains cfg.initialState = true →
      cfg.acceptingStates.find?
        (fun x => !(jsDedup cfg.states).contains x) = none →
      cfg.transitions.find?
        (badTransition (jsDedup cfg.states) (jsDedup cfg.alphabet)) = none →
      cfg.outputs.find?
        (fun q => !(jsDedup cfg.states).contains q.1) = none →
      ∃ m, construct cfg = .ok m) := by
  refine ⟨fun hA => ?_, fun hA s hB => ?_, fun hA hB t hC => ?_,
    fun hA hB hC p hD => ?_, fun hA hB hC hD => ?_⟩
  · have hA' : ¬ cfg.initialState ∈ jsDedup cfg.states := by simpa using hA
    simp [construct, hA']
  · have hA' : cfg.initialState ∈ jsDedup cfg.states := by simpa using hA
    simp only [List.elem_eq_mem] at hB
    simp [construct, hA', checkStatesDeclared_eq_find, hB]
  · have hA' : cfg.initialState ∈ jsDedup cfg.states := by simpa using hA
    have hbt := (buildTransitionFunction_error_char cfg.transitions
      (jsDedup cfg.states) (jsDedup cfg.alphabet) []).2 t hC
    simp only [List.elem_eq_mem] at hB
    simp [construct, hA', checkStatesDeclared_eq_find, hB, hbt]
  · have hA' : cfg.initialState ∈ jsDedup cfg.states := by simpa using hA
    obtain ⟨tf, htf⟩ := (buildTransitionFunction_error_char cfg.transitions
      (jsDedup cfg.states) (jsDedup cfg.alphabet) []).1 hC
    simp only [List.elem_eq_mem] at hB hD
    simp [construct, hA', checkStatesDeclared_eq_find, hB, htf,
      checkOutputStates_eq_find, hD]
  · have hA' : cfg.initialState ∈ jsDedup cfg.states := by simpa using hA
    obtain ⟨tf, htf⟩ := (buildTransitionFunction_error_char cfg.transitions
      (jsDedup cfg.states) (jsDedup cfg.alphabet) []).1 hC
    simp only [List.elem_eq_mem] at hB hD
    refine ⟨FSM.mk (jsDedup cfg.states) (jsDedup cfg.alphabet)
      cfg.initialState cfg.initialState (jsDedup cfg.acceptingStates)
      tf (jsMapOfList cfg.outputs), ?_⟩
    simp [construct, hA', checkStatesDeclared_eq_find, hB, htf,
      checkOutputStates_eq_find, hD]

/-- C4, witness: the amended validation-order theorem instantiated at
`badDestConfig`, whose first (and only) bad transition is
`("A", "0", "Z")`. -/
theorem construct_validation_order_witness :
    (jsDedup badDestConfig.states).contains badDestConfig.initialState =
      true ∧
    badDestConfig.acceptingStates.find?
      (fun x => !(jsDedup badDestConfig.states).contains x) = none ∧
    badDestConfig.transitions.find?
      (badTransition (jsDedup badDestConfig.states)
        (jsDedup badDestConfig.alphabet)) =
      some ("A".toList, "0".toList, "Z".toList) ∧
    construct badDestConfig = .error
      (if !(jsDedup badDestConfig.states).contains "A".toList ||
          !(jsDedup badDestConfig.states).contains "Z".toList then
        .invalidState ("A".toList ++ (" or ").toList ++ "Z".toList)
      else .invalidSymbol "0".toList) :=
  ⟨by decide, by decide, by decide,
    (construct_validation_order badDestConfig).2.2.1 (by decide) (by decide)
      ("A".toList, "0".toList, "Z".toList) (by decide)⟩

end FSMGen
